import Mathlib

/-!
Verification development for the unicart-scraper extraction engine
(src/index.js).  The extraction engine is shallowly embedded: JavaScript
values decoded from JSON become the `Json` inductive, numbers are modelled
as exact rationals, fallible operations return `Option`, and the cheerio
HTML view plus the platform builtins (JSON.parse, the WHATWG URL
constructor) are modelled at their interface boundary as explained on the
corresponding definitions.
-/

/-- A JavaScript value as produced by JSON.parse: null, booleans, (finite)
numbers, strings, arrays and objects.  Numbers are modelled as exact
rationals; objects are association lists (JSON.parse yields unique keys). -/
inductive Json where
  | null : Json
  | bool : Bool → Json
  | num : ℚ → Json
  | str : String → Json
  | arr : List Json → Json
  | obj : List (String × Json) → Json

/-- JavaScript truthiness of a `Json` value: null, false, 0 and "" are
falsy, everything else (including every array and object) is truthy. -/
def truthy : Json → Bool
  | Json.null => false
  | Json.bool b => b
  | Json.num q => q != 0
  | Json.str s => s != ""
  | Json.arr _ => true
  | Json.obj _ => true

/-- Property lookup on an association list (first match; JSON.parse objects
have unique keys). -/
def lookupKV (k : String) : List (String × Json) → Option Json
  | [] => none
  | (k2, v) :: rest => if k2 = k then some v else lookupKV k rest

/-- JavaScript property access `node?.[k]`: `none` models undefined
(missing key, or access on a non-object). -/
def jsGet : Json → String → Option Json
  | Json.obj kvs, k => lookupKV k kvs
  | _, _ => none

/-- Property access that also maps a JSON null value to `none`, modelling
the nullish-coalescing chain `a ?? b` which skips both null and undefined. -/
def jsGetNN (o : Json) (k : String) : Option Json :=
  match jsGet o k with
  | some Json.null => none
  | r => r

/-- Approximation of the JavaScript number-to-string coercion.  It is only
reached where the source stringifies a numeric `name`, `@type` member or
`priceCurrency`; no verified claim depends on its exact digits, only on the
result being a numeral-shaped, non-empty string. -/
def numToStr (q : ℚ) : String :=
  if q.den = 1 then toString q.num else toString q.num ++ "/" ++ toString q.den

mutual

/-- The JavaScript `String(v)` coercion on JSON values: strings pass
through, booleans and null print their keyword, arrays join their elements
with commas (null elements become empty, as in Array.prototype.join) and
plain objects print "[object Object]". -/
def jsToString : Json → String
  | Json.null => "null"
  | Json.bool true => "true"
  | Json.bool false => "false"
  | Json.num q => numToStr q
  | Json.str s => s
  | Json.arr xs => joinArr xs
  | Json.obj _ => "[object Object]"

/-- Array.prototype.join with separator ",". -/
def joinArr : List Json → String
  | [] => ""
  | [x] => elemStr x
  | x :: y :: xs => elemStr x ++ "," ++ joinArr (y :: xs)

/-- An array element under join: null prints as the empty string, every
other element prints as under the String coercion. -/
def elemStr : Json → String
  | Json.null => ""
  | Json.bool true => "true"
  | Json.bool false => "false"
  | Json.num q => numToStr q
  | Json.str s => s
  | Json.arr xs => joinArr xs
  | Json.obj _ => "[object Object]"

end

mutual

/-- The `walk` closure of flattenJsonLd (src/index.js lines 69-84): a
primitive contributes nothing (falsy values return at the `!node` guard and
the remaining primitives at the `typeof` guard), an array is unwrapped into
its walked elements without being added itself, and an object is appended
followed by the walks of its `@graph`, `graph`, `mainEntity`,
`itemListElement` and `offers` properties, in that order.  The source
guards each of those five recursive walks with a truthiness test, which is
immaterial here because every falsy value walks to the empty list. -/
def flattenWalk : Json → List Json
  | Json.arr xs => flattenArr xs
  | Json.obj kvs =>
      Json.obj kvs :: (pickWalk "@graph" kvs ++ pickWalk "graph" kvs ++
        pickWalk "mainEntity" kvs ++ pickWalk "itemListElement" kvs ++
        pickWalk "offers" kvs)
  | _ => []

/-- Walk every element of an array in order (Array.prototype.forEach). -/
def flattenArr : List Json → List Json
  | [] => []
  | x :: xs => flattenWalk x ++ flattenArr xs

/-- Walk the value of property `k` of an object given as an association
list (empty when the property is missing). -/
def pickWalk (k : String) : List (String × Json) → List Json
  | [] => []
  | (k2, v) :: rest => if k2 = k then flattenWalk v else pickWalk k rest

end

/-- flattenJsonLd from src/index.js: flatten one parsed structured-data
document into its candidate node sequence. -/
def flattenJsonLd (j : Json) : List Json := flattenWalk j

/-- Characters JavaScript String.prototype.trim removes (ASCII whitespace;
the engine never depends on the exotic Unicode space classes). -/
def trimL (l : List Char) : List Char :=
  ((l.dropWhile Char.isWhitespace).reverse.dropWhile Char.isWhitespace).reverse

/-- JavaScript String.prototype.trim. -/
def jsTrim (s : String) : String := String.mk (trimL s.data)

/-- JavaScript toLowerCase, adequate for the ASCII type names compared by
isType. -/
def jsToLower (s : String) : String := String.mk (s.data.map Char.toLower)

/-- JavaScript toUpperCase, adequate for the ASCII currency codes searched
by extractCurrencyLoose. -/
def jsToUpper (s : String) : String := String.mk (s.data.map Char.toUpper)

/-- isType from src/index.js: the `@type` discriminator must be truthy and
either a string equal to the wanted type or an array one of whose
stringified members equals it, case-insensitively. -/
def isType (n : Json) (t : String) : Bool :=
  let want := jsToLower t
  match jsGet n "@type" with
  | some raw =>
    if truthy raw then
      match raw with
      | Json.str s => jsToLower s == want
      | Json.arr xs => xs.any (fun x => jsToLower (jsToString x) == want)
      | _ => false
    else false
  | none => false

/-- A character kept by the cleaning regex of toNumberOrNull
(`/[^\d.,]/g` removes everything but digits, periods and commas). -/
def keepChar (c : Char) : Bool := c.isDigit || c == ',' || c == '.'

/-- The cleaned character sequence of toNumberOrNull. -/
def cleanedOf (l : List Char) : List Char := l.filter keepChar

/-- Remove every occurrence of a character (a global-regex replace). -/
def removeAll (c : Char) (l : List Char) : List Char := l.filter (fun x => x != c)

/-- Replace the first occurrence of a character, as JavaScript
String.prototype.replace does with a string pattern. -/
def replaceFirst (c d : Char) : List Char → List Char
  | [] => []
  | x :: xs => if x = c then d :: xs else x :: replaceFirst c d xs

/-- Replace the last occurrence of a character. -/
def replaceLast (c d : Char) : List Char → List Char
  | [] => []
  | x :: xs =>
    if c ∈ xs then x :: replaceLast c d xs
    else if x = c then d :: xs else x :: xs

/-- Number of occurrences of a character. -/
def countC (c : Char) : List Char → Nat
  | [] => 0
  | x :: xs => (if x = c then 1 else 0) + countC c xs

/-- JavaScript String.prototype.lastIndexOf restricted to single
characters: `none` models -1. -/
def lastIdx (c : Char) : List Char → Option Nat
  | [] => none
  | x :: xs =>
    match lastIdx c xs with
    | some j => some (j + 1)
    | none => if x = c then some 0 else none

/-- Value of a digit string read as a decimal numeral. -/
def digitsToNat : List Char → Nat → Nat
  | [], acc => acc
  | c :: cs, acc => digitsToNat cs (acc * 10 + (c.toNat - 48))

/-- Model of the JavaScript Number() string conversion restricted to the
strings toNumberOrNull can feed it: after cleaning and separator
normalization the string consists only of digits, periods and commas (no
sign, exponent, whitespace or Infinity), so it parses exactly when it is a
decimal numeral with at most one period and at least one digit ("12." and
".5" are accepted, "" is 0 in JavaScript, everything else is NaN, modelled
as `none`).  Numbers are modelled as exact rationals. -/
def numParse (l : List Char) : Option ℚ :=
  if l.isEmpty then some 0
  else
    let a := l.takeWhile (fun c => c != '.')
    match l.dropWhile (fun c => c != '.') with
    | [] => if a.all Char.isDigit && !a.isEmpty then some ((digitsToNat a 0 : ℚ)) else none
    | _ :: b =>
      if a.all Char.isDigit && b.all Char.isDigit && !(a.isEmpty && b.isEmpty) then
        some ((digitsToNat a 0 : ℚ) + (digitsToNat b 0 : ℚ) / ((10 : ℚ) ^ b.length))
      else none

/-- The decimal-separator normalization of toNumberOrNull (src/index.js
lines 44-55) on the cleaned string: when both a comma and a period occur,
the kind whose last occurrence comes later is the decimal separator; every
occurrence of the other kind is removed by a global-regex replace and the
first occurrence of the decimal separator is replaced by a period (a
string-pattern replace).  Otherwise the first comma, if any, is replaced by
a period. -/
def codeNormalize (cl : List Char) : List Char :=
  match lastIdx ',' cl, lastIdx '.' cl with
  | some lc, some ld =>
    if ld < lc then replaceFirst ',' '.' (removeAll '.' cl)
    else replaceFirst '.' '.' (removeAll ',' cl)
  | _, _ => replaceFirst ',' '.' cl

/-- The string branch of toNumberOrNull from src/index.js: trim, reject the
empty string, clean, reject an empty cleaned string, normalize separators
and convert with Number(). -/
def strToNum (s : String) : Option ℚ :=
  let t := jsTrim s
  if t.data.isEmpty then none
  else
    let cl := cleanedOf t.data
    if cl.isEmpty then none else numParse (codeNormalize cl)

/-- toNumberOrNull from src/index.js on an optional JSON value (`none`
models undefined): null and undefined give null; a number is returned as-is
(every modelled rational is finite); any other value is stringified and
goes through the string branch. -/
def toNumberOrNull : Option Json → Option ℚ
  | none => none
  | some Json.null => none
  | some (Json.num q) => some q
  | some (Json.bool b) => strToNum (jsToString (Json.bool b))
  | some (Json.str s) => strToNum s
  | some (Json.arr xs) => strToNum (jsToString (Json.arr xs))
  | some (Json.obj kvs) => strToNum (jsToString (Json.obj kvs))

/-- Whether `sub` is a prefix of the second list. -/
def startsW : List Char → List Char → Bool
  | [], _ => true
  | _ :: _, [] => false
  | a :: as, b :: bs => a == b && startsW as bs

/-- Whether `sub` occurs as a contiguous substring (JavaScript
String.prototype.includes). -/
def hasSubL (sub : List Char) : List Char → Bool
  | [] => sub.isEmpty
  | c :: rest => startsW sub (c :: rest) || hasSubL sub rest

/-- String.prototype.includes on Lean strings. -/
def hasSub (sub s : String) : Bool := hasSubL sub.data s.data

/-- String.prototype.startsWith on Lean strings. -/
def startsWithS (s p : String) : Bool := startsW p.data s.data

/-- extractCurrencyLoose from src/index.js: EUR, then USD, then GBP, each
matched by its uppercase code in the uppercased text or by its currency
sign in the original text; otherwise null. -/
def extractCurrencyLoose (s : String) : Option String :=
  let up := jsToUpper s
  if hasSub "EUR" up || hasSub "€" s then some "EUR"
  else if hasSub "USD" up || hasSub "$" s then some "USD"
  else if hasSub "GBP" up || hasSub "£" s then some "GBP"
  else none

/-- pickFirst from src/index.js: the first value whose string coercion
trims to a non-empty string, else "".  `none` models undefined, which
`v ?? ""` coerces to the empty string. -/
def pickFirst : List (Option String) → String
  | [] => ""
  | v :: rest =>
    let s := jsTrim (v.getD "")
    if s != "" then s else pickFirst rest

/-- Modelled from the spec: the platform WHATWG URL constructor
`new URL(maybe, base)` used by absUrl is a platform builtin outside the
repository, so its base parsing is modelled from spec section 4.5 for the
http and https bases the engine receives: scheme, then host up to the first
slash (which must be non-empty), then the path (defaulting to "/"). -/
def parseBase (base : String) : Option (String × String × String) :=
  let split := fun (scheme : String) (rest : List Char) =>
    let host := rest.takeWhile (fun c => c != '/')
    let path := rest.dropWhile (fun c => c != '/')
    if host.isEmpty then none
    else some (scheme, String.mk host,
      if path.isEmpty then "/" else String.mk path)
  if startsWithS base "http://" then split "http" (base.data.drop 7)
  else if startsWithS base "https://" then split "https" (base.data.drop 8)
  else none

/-- The directory part of a path: everything up to and including the last
slash, used when merging a relative reference. -/
def dirOf (path : String) : String :=
  match lastIdx '/' path.data with
  | some i => String.mk (path.data.take (i + 1))
  | none => "/"

/-- Modelled from the spec: resolution by the platform URL constructor
(spec section 4.5): absolute references pass through unchanged,
scheme-relative and root-relative references take the base's scheme (and
host), other references are merged onto the base path's directory, and an
unparsable combination (here: a non-absolute reference against an
unparsable base) fails. -/
def resolveUrl (base maybe : String) : Option String :=
  if startsWithS maybe "http://" || startsWithS maybe "https://" then some maybe
  else
    match parseBase base with
    | none => none
    | some (scheme, host, path) =>
      if startsWithS maybe "//" then some (scheme ++ ":" ++ maybe)
      else if startsWithS maybe "/" then some (scheme ++ "://" ++ host ++ maybe)
      else some (scheme ++ "://" ++ host ++ dirOf path ++ maybe)

/-- absUrl from src/index.js: empty (falsy) references give "", and a
resolution failure (the catch around new URL) also gives "". -/
def absUrl (base maybe : String) : String :=
  if maybe.data.isEmpty then ""
  else
    match resolveUrl base maybe with
    | some u => u
    | none => ""

/-- The four mutable locals of the JSON-LD scan in parseFromHtml (title,
imageUrl, price, currency). -/
structure ScanState where
  title : String
  imageUrl : String
  price : Option ℚ
  currency : Option String
deriving DecidableEq

/-- The initial scan state of parseFromHtml. -/
def initScan : ScanState :=
  { title := "", imageUrl := "", price := none, currency := none }

/-- The offer selected from a candidate: `offers[0]` when the offers
property is an array (undefined when it is empty), else the offers value
itself. -/
def offerOf (n : Json) : Option Json :=
  match jsGet n "offers" with
  | some (Json.arr xs) => xs.head?
  | some j => some j
  | none => none

/-- The value the scan feeds to toNumberOrNull for an offer:
`offer?.price ?? offer?.lowPrice ?? offer?.highPrice`. -/
def offerPriceVal (o : Json) : Option Json :=
  jsGetNN o "price" <|> jsGetNN o "lowPrice" <|> jsGetNN o "highPrice"

/-- The currency string of an offer:
`offer?.priceCurrency ? String(offer.priceCurrency) : null`. -/
def offerCurrency (o : Json) : Option String :=
  match jsGet o "priceCurrency" with
  | some pc => if truthy pc then some (jsToString pc) else none
  | none => none

/-- The body of the candidate loop of parseFromHtml (src/index.js lines
112-130) for one candidate: fill the title from a truthy name, the image
from a string image or the string head of an image array, and — only while
price is still null and the candidate carries a truthy offer — the price
from the offer's price chain and the currency from the offer's truthy,
non-empty currency string (only if not already set). -/
def scanStep (st : ScanState) (n : Json) : ScanState :=
  let title :=
    if st.title == "" then
      match jsGet n "name" with
      | some v => if truthy v then jsTrim (jsToString v) else st.title
      | none => st.title
    else st.title
  let imageUrl :=
    if st.imageUrl == "" then
      match jsGet n "image" with
      | some (Json.str s) => s
      | some (Json.arr (Json.str s :: _)) => s
      | _ => st.imageUrl
    else st.imageUrl
  match st.price, offerOf n with
  | none, some o =>
    if truthy o then
      let price := toNumberOrNull (offerPriceVal o)
      let currency :=
        match st.currency, offerCurrency o with
        | none, some c => if c != "" then some c else none
        | _, _ => st.currency
      { title := title, imageUrl := imageUrl, price := price, currency := currency }
    else { st with title := title, imageUrl := imageUrl }
  | _, _ => { st with title := title, imageUrl := imageUrl }

/-- The early-exit condition of the candidate loop:
`if (title && imageUrl && price != null) break`. -/
def scanComplete (st : ScanState) : Bool :=
  st.title != "" && st.imageUrl != "" && st.price.isSome

/-- The candidate loop of parseFromHtml: apply scanStep to each candidate
in order, stopping right after the first candidate that leaves all three of
title, image and price set. -/
def scanCandidates : ScanState → List Json → ScanState
  | st, [] => st
  | st, n :: rest =>
    let st2 := scanStep st n
    if scanComplete st2 then st2 else scanCandidates st2 rest

/-- One iteration of the script loop of parseFromHtml: a malformed block
(JSON.parse threw, modelled as `none`) is skipped by the catch; a parsed
block is flattened, restricted to Product-typed candidates when any exist,
and scanned. -/
def processBlock (st : ScanState) (b : Option Json) : ScanState :=
  match b with
  | none => st
  | some j =>
    let nodes := flattenJsonLd j
    let products := nodes.filter (fun n => isType n "Product")
    let candidates := if products.isEmpty then nodes else products
    scanCandidates st candidates

/-- The full script loop of parseFromHtml over all structured-data blocks
in document order; the scan state persists across blocks. -/
def scanBlocks (st : ScanState) (bs : List (Option Json)) : ScanState :=
  bs.foldl processBlock st

/-- The cheerio view of one HTML document, modelled at the interface
boundary: cheerio and JSON.parse are external libraries, so the document is
represented by exactly what parseFromHtml reads through them — the
JSON.parse outcome of each application/ld+json script in document order
(`none` models a malformed payload) and the attribute values (`none`
models a missing attribute) and element texts the heuristic selectors
return. -/
structure Doc where
  ldJsonBlocks : List (Option Json)
  ogTitleAttr : Option String
  twitterTitleAttr : Option String
  titleText : String
  ogImageAttr : Option String
  twitterImageAttr : Option String
  priceMetaProp : Option String
  priceMetaName : Option String
  priceItemAttr : Option String
  priceItemText : String
  currencyMetaProp : Option String
  currencyMetaName : Option String
  currencyItemAttr : Option String
  currencyItemText : String

/-- The record parseFromHtml returns: title and imageUrl degrade to "",
price and currency to `none`. -/
structure ProductRecord where
  title : String
  imageUrl : String
  price : Option ℚ
  currency : Option String
deriving DecidableEq

/-- JavaScript `a || b` on nullable strings: null and "" are falsy. -/
def orS (a b : Option String) : Option String :=
  match a with
  | some s => if s == "" then b else some s
  | none => b

/-- The final merge of parseFromHtml (src/index.js lines 161-171): picked
title, image resolved against the page URL, structured price with the
heuristic price string as fallback, and the currency chain
`currency || (metaCurrency ? metaCurrency.trim() : null) ||
extractCurrencyLoose(metaPrice || "")`. -/
def mergeResolve (url : String) (st : ScanState)
    (ogTitle ogImage metaPrice metaCurrency : String) : ProductRecord :=
  { title := pickFirst [some st.title, some ogTitle]
    imageUrl := absUrl url (pickFirst [some st.imageUrl, some ogImage])
    price := match st.price with | some p => some p | none => strToNum metaPrice
    currency :=
      orS st.currency
        (orS (if metaCurrency != "" then some (jsTrim metaCurrency) else none)
          (extractCurrencyLoose metaPrice)) }

/-- parseFromHtml from src/index.js: scan the structured-data blocks, read
the heuristic fallback sources in their fixed priority order, and merge. -/
def parseFromHtml (url : String) (doc : Doc) : ProductRecord :=
  let st := scanBlocks initScan doc.ldJsonBlocks
  let ogTitle := pickFirst [doc.ogTitleAttr, doc.twitterTitleAttr, some doc.titleText]
  let ogImage := pickFirst [doc.ogImageAttr, doc.twitterImageAttr]
  let metaPrice := pickFirst
    [doc.priceMetaProp, doc.priceMetaName, doc.priceItemAttr, some doc.priceItemText]
  let metaCurrency := pickFirst
    [doc.currencyMetaProp, doc.currencyMetaName, doc.currencyItemAttr,
      some doc.currencyItemText]
  mergeResolve url st ogTitle ogImage metaPrice metaCurrency

/-- The TOKEN constant of src/index.js: `process.env.SCRAPER_TOKEN || ""`,
with the environment variable modelled as `none` when unset. -/
def envToken (env : Option String) : String := env.getD ""

/-- authOk from src/index.js: with an empty token every request passes;
otherwise the authorization header (`|| ""` for a missing one) must equal
the bearer string. -/
def authOk (token : String) (authHeader : Option String) : Bool :=
  if token == "" then true
  else authHeader.getD "" == "Bearer " ++ token

/-- Modelled from the spec (claim C1's reading of the scan): currency
"always gets at least one full pass": the first candidate in the sequence
carrying an offer with a truthy, non-empty currency string supplies the
currency, independently of where the price was found. -/
def currencyFullPass : List Json → Option String
  | [] => none
  | n :: rest =>
    match offerOf n with
    | some o =>
      (match offerCurrency o with
       | some c => if c != "" then some c else currencyFullPass rest
       | none => currencyFullPass rest)
    | none => currencyFullPass rest

/-- Modelled from the spec (section 4.3, step 4): when both separators
occur, the separator kind occurring last is the decimal separator; all
occurrences of the other kind are removed and the decimal separator — read
here as its last occurrence, the one that made it the decimal separator —
is replaced with a period. -/
def specNormalizeBoth (cl : List Char) : List Char :=
  match lastIdx ',' cl, lastIdx '.' cl with
  | some lc, some ld =>
    if ld < lc then replaceLast ',' '.' (removeAll '.' cl)
    else replaceLast '.' '.' (removeAll ',' cl)
  | _, _ => cl

/-! ### Helper lemmas about the character-list operations -/

/-- A character occurs in a list exactly when its count is positive. -/
theorem countC_pos_iff_mem (c : Char) : ∀ l : List Char, 0 < countC c l ↔ c ∈ l := by
  intro l
  induction l with
  | nil => simp [countC]
  | cons x xs ih =>
    by_cases hx : x = c
    · subst hx
      simp [countC]
    · have hcx : ¬ c = x := fun h => hx h.symm
      simp [countC, hx, ih, List.mem_cons, hcx]

/-- lastIdx finds no index exactly when the character is absent. -/
theorem lastIdx_eq_none_iff (c : Char) : ∀ l : List Char, lastIdx c l = none ↔ c ∉ l := by
  intro l
  induction l with
  | nil => simp [lastIdx]
  | cons x xs ih =>
    cases h : lastIdx c xs with
    | some j =>
      have hmem : c ∈ xs := by
        by_contra hc
        rw [ih.mpr hc] at h
        cases h
      simp [lastIdx, h, hmem]
    | none =>
      have hnm : c ∉ xs := ih.mp h
      by_cases hx : x = c
      · subst hx
        simp [lastIdx, h]
      · have hcx : ¬ c = x := fun hh => hx hh.symm
        simp [lastIdx, h, hx, hnm, List.mem_cons, hcx]

/-- A present character has a last index. -/
theorem lastIdx_some_of_mem (c : Char) (l : List Char) (h : c ∈ l) :
    ∃ j, lastIdx c l = some j := by
  cases hl : lastIdx c l with
  | some j => exact ⟨j, rfl⟩
  | none => exact absurd h ((lastIdx_eq_none_iff c l).mp hl)

/-- Replacing a character by itself at its first occurrence changes nothing. -/
theorem replaceFirst_self (c : Char) : ∀ l : List Char, replaceFirst c c l = l := by
  intro l
  induction l with
  | nil => rfl
  | cons x xs ih =>
    by_cases hx : x = c
    · subst hx; simp [replaceFirst]
    · simp [replaceFirst, hx, ih]

/-- Replacing a character by itself at its last occurrence changes nothing. -/
theorem replaceLast_self (c : Char) : ∀ l : List Char, replaceLast c c l = l := by
  intro l
  induction l with
  | nil => rfl
  | cons x xs ih =>
    by_cases hm : c ∈ xs
    · simp [replaceLast, hm, ih]
    · by_cases hx : x = c
      · subst hx; simp [replaceLast, hm]
      · simp [replaceLast, hm, hx]

/-- With a single occurrence, first-occurrence and last-occurrence
replacement agree. -/
theorem replaceFirst_eq_replaceLast_of_countC_one (c d : Char) :
    ∀ l : List Char, countC c l = 1 → replaceFirst c d l = replaceLast c d l := by
  intro l
  induction l with
  | nil => intro h; rfl
  | cons x xs ih =>
    intro h
    by_cases hx : x = c
    · subst hx
      have hz : countC x xs = 0 := by simpa [countC] using h
      have hnm : x ∉ xs := by
        intro hmem
        have := (countC_pos_iff_mem x xs).mpr hmem
        omega
      simp [replaceFirst, replaceLast, hnm]
    · have h1 : countC c xs = 1 := by simpa [countC, hx] using h
      have hmem : c ∈ xs := (countC_pos_iff_mem c xs).mp (by omega)
      simp [replaceFirst, replaceLast, hx, hmem, ih h1]

/-- With at least two occurrences, one remains after replacing the first. -/
theorem mem_replaceFirst_of_two_le (c d : Char) :
    ∀ l : List Char, 2 ≤ countC c l → c ∈ replaceFirst c d l := by
  intro l
  induction l with
  | nil => intro h; simp [countC] at h
  | cons x xs ih =>
    intro h
    by_cases hx : x = c
    · subst hx
      have h1 : 1 ≤ countC x xs := by simp [countC] at h; omega
      have hmem : x ∈ xs := (countC_pos_iff_mem x xs).mp (by omega)
      simp [replaceFirst, hmem]
    · have h2 : 2 ≤ countC c xs := by simpa [countC, hx] using h
      simp [replaceFirst, hx, ih h2]

/-- With at least two occurrences, one remains after replacing the last. -/
theorem mem_replaceLast_of_two_le (c d : Char) :
    ∀ l : List Char, 2 ≤ countC c l → c ∈ replaceLast c d l := by
  intro l
  induction l with
  | nil => intro h; simp [countC] at h
  | cons x xs ih =>
    intro h
    by_cases hm : c ∈ xs
    · by_cases hx : x = c
      · subst hx
        simp [replaceLast, hm]
      · have h2 : 2 ≤ countC c xs := by simpa [countC, hx] using h
        simp [replaceLast, hm, ih h2]
    · have hz : countC c xs = 0 := by
        by_contra hc
        exact hm ((countC_pos_iff_mem c xs).mp (Nat.pos_of_ne_zero hc))
      by_cases hx : x = c <;> simp [countC, hx, hz] at h

/-- The head surviving dropWhile falsifies the predicate. -/
theorem dropWhile_head_false (p : Char → Bool) :
    ∀ (l : List Char) (h : Char) (t : List Char),
      l.dropWhile p = h :: t → p h = false := by
  intro l
  induction l with
  | nil => intro h t hyp; cases hyp
  | cons x xs ih =>
    intro h t hyp
    rw [List.dropWhile_cons] at hyp
    by_cases hx : p x
    · rw [if_pos hx] at hyp
      exact ih h t hyp
    · rw [if_neg hx] at hyp
      cases hyp
      exact Bool.of_not_eq_true hx

/-- A string still containing a comma is NaN under Number(). -/
theorem numParse_of_mem_comma : ∀ l : List Char, ',' ∈ l → numParse l = none := by
  intro l hmem
  have hne : l ≠ [] := List.ne_nil_of_mem hmem
  have hemp : l.isEmpty = false := by simp [List.isEmpty_iff, hne]
  have hsplit : l.takeWhile (fun c => c != '.') ++ l.dropWhile (fun c => c != '.') = l :=
    List.takeWhile_append_dropWhile _ l
  have hdigit : (',' : Char).isDigit = false := by decide
  cases hr : l.dropWhile (fun c => c != '.') with
  | nil =>
    rw [hr, List.append_nil] at hsplit
    have ha : ',' ∈ l.takeWhile (fun c => c != '.') := by
      rw [hsplit]; exact hmem
    have hall : (l.takeWhile (fun c => c != '.')).all Char.isDigit = false := by
      rw [List.all_eq_false]
      exact ⟨',', ha, by simp [hdigit]⟩
    simp [numParse, hemp, hr, hall]
  | cons h b =>
    have hh : h = '.' := by
      have := dropWhile_head_false (fun c => c != '.') l h b hr
      simpa using this
    have hmem2 : ',' ∈ l.takeWhile (fun c => c != '.') ∨ ',' ∈ b := by
      rw [← hsplit, hr] at hmem
      rcases List.mem_append.mp hmem with h1 | h1
      · exact Or.inl h1
      · rcases List.mem_cons.mp h1 with h2 | h2
        · rw [hh] at h2
          exact absurd h2 (by decide)
        · exact Or.inr h2
    rcases hmem2 with hA | hB
    · have hall : (l.takeWhile (fun c => c != '.')).all Char.isDigit = false := by
        rw [List.all_eq_false]
        exact ⟨',', hA, by simp [hdigit]⟩
      simp [numParse, hemp, hr, hall]
    · have hall : b.all Char.isDigit = false := by
        rw [List.all_eq_false]
        exact ⟨',', hB, by simp [hdigit]⟩
      simp [numParse, hemp, hr, hall]

/-- Whitespace never survives the cleaning regex. -/
theorem ws_not_keep (c : Char) (h : Char.isWhitespace c = true) : keepChar c = false := by
  have hw : (c = ' ' || c = '\t' || c = '\r' || c = '\n') = true := h
  simp only [Bool.or_eq_true, decide_eq_true_eq] at hw
  rcases hw with ((h1 | h1) | h1) | h1 <;> subst h1 <;> decide

/-- Dropping leading whitespace does not change the cleaned string. -/
theorem cleaned_dropWhile_ws :
    ∀ l : List Char, (l.dropWhile Char.isWhitespace).filter keepChar = l.filter keepChar := by
  intro l
  induction l with
  | nil => rfl
  | cons x xs ih =>
    rw [List.dropWhile_cons]
    by_cases hx : Char.isWhitespace x
    · rw [if_pos hx, ih, List.filter_cons, ws_not_keep x hx]
      simp
    · rw [if_neg hx]

/-- Trimming does not change the cleaned string. -/
theorem cleanedOf_trimL (l : List Char) : cleanedOf (trimL l) = cleanedOf l := by
  show (trimL l).filter keepChar = l.filter keepChar
  rw [trimL, List.filter_reverse, cleaned_dropWhile_ws, List.filter_reverse,
    List.reverse_reverse, cleaned_dropWhile_ws]

/-- A non-trivially cleaned input reaches the separator normalization: the
string branch of toNumberOrNull is Number() applied to the normalized
cleaned string. -/
theorem strToNum_eq_numParse_codeNormalize (s : String)
    (h : cleanedOf s.data ≠ []) :
    strToNum s = numParse (codeNormalize (cleanedOf s.data)) := by
  have hcl : cleanedOf (jsTrim s).data = cleanedOf s.data := cleanedOf_trimL s.data
  have htr : (jsTrim s).data.isEmpty = false := by
    rw [Bool.eq_false_iff]
    intro he
    apply h
    rw [← hcl]
    show cleanedOf (jsTrim s).data = []
    rw [List.isEmpty_iff.mp he]
    rfl
  have hclne : (cleanedOf s.data).isEmpty = false := by
    rw [Bool.eq_false_iff]
    intro he
    exact h (List.isEmpty_iff.mp he)
  simp only [strToNum, hcl, htr, hclne, Bool.false_eq_true, if_false]

/-- On a cleaned string containing both separators, the source
normalization (remove the other kind globally, replace the first decimal
separator) and the spec normalization (replace the last) convert to the
same number: they coincide when the decimal separator occurs once, and both
leave a comma behind — hence NaN — when it occurs more often. -/
theorem numParse_codeNormalize_eq_spec (cl : List Char)
    (hc : ',' ∈ cl) (hd : '.' ∈ cl) :
    numParse (codeNormalize cl) = numParse (specNormalizeBoth cl) := by
  obtain ⟨lc, hlc⟩ := lastIdx_some_of_mem ',' cl hc
  obtain ⟨ld, hld⟩ := lastIdx_some_of_mem '.' cl hd
  simp only [codeNormalize, specNormalizeBoth, hlc, hld]
  by_cases hlt : ld < lc
  · simp only [if_pos hlt]
    have hm : ',' ∈ removeAll '.' cl := by
      rw [removeAll, List.mem_filter]
      exact ⟨hc, by decide⟩
    have hcnt : 0 < countC ',' (removeAll '.' cl) :=
      (countC_pos_iff_mem ',' (removeAll '.' cl)).mpr hm
    rcases Nat.lt_or_ge (countC ',' (removeAll '.' cl)) 2 with h2 | h2
    · have h1 : countC ',' (removeAll '.' cl) = 1 := by omega
      rw [replaceFirst_eq_replaceLast_of_countC_one ',' '.' (removeAll '.' cl) h1]
    · rw [numParse_of_mem_comma _ (mem_replaceFirst_of_two_le ',' '.' (removeAll '.' cl) h2),
        numParse_of_mem_comma _ (mem_replaceLast_of_two_le ',' '.' (removeAll '.' cl) h2)]
  · simp only [if_neg hlt, replaceFirst_self, replaceLast_self]

/-- Once price is set, a scan step changes neither price nor currency: the
whole offer block of the loop body is guarded by `price == null`. -/
theorem scanStep_of_price_some (st : ScanState) (n : Json) (p : ℚ)
    (h : st.price = some p) :
    (scanStep st n).price = some p ∧ (scanStep st n).currency = st.currency := by
  refine ⟨?_, ?_⟩ <;> (unfold scanStep; rw [h])

/-- Once price is set, the remaining candidate scan leaves the currency
untouched. -/
theorem scanCandidates_currency_of_price_some :
    ∀ (cs : List Json) (st : ScanState) (p : ℚ), st.price = some p →
      (scanCandidates st cs).currency = st.currency := by
  intro cs
  induction cs with
  | nil => intro st p _; rfl
  | cons n rest ih =>
    intro st p h
    obtain ⟨hp, hc⟩ := scanStep_of_price_some st n p h
    show (if scanComplete (scanStep st n) then scanStep st n
          else scanCandidates (scanStep st n) rest).currency = st.currency
    by_cases hb : scanComplete (scanStep st n)
    · rw [if_pos hb, hc]
    · rw [if_neg hb, ih (scanStep st n) p hp, hc]

/-- The falsy-string fallback chain only produces non-empty strings from
its left operand; emptiness can only come from the right operand. -/
theorem orS_some_ne (a b : Option String) (hb : ∀ c, b = some c → c ≠ "") :
    ∀ c, orS a b = some c → c ≠ "" := by
  intro c h
  cases a with
  | none => exact hb c h
  | some s =>
    by_cases hs : s == ""
    · simp only [orS, if_pos hs] at h
      exact hb c h
    · simp only [orS, if_neg hs] at h
      injection h with h2
      subst h2
      simpa using hs

/-- The loose currency detector only ever returns the three fixed,
non-empty codes. -/
theorem extractCurrencyLoose_ne_empty (s : String) :
    ∀ c, extractCurrencyLoose s = some c → c ≠ "" := by
  intro c h
  simp only [extractCurrencyLoose] at h
  split at h
  · injection h with h2; subst h2; decide
  · split at h
    · injection h with h2; subst h2; decide
    · split at h
      · injection h with h2; subst h2; decide
      · exact Option.noConfusion h

/-- The valid structured-data blocks of a block list. -/
def validOnly (bs : List (Option Json)) : List (Option Json) :=
  (bs.filterMap id).map some

/-- Skipping the malformed blocks is the same as scanning only the valid
ones: a malformed block leaves the scan state unchanged. -/
theorem scanBlocks_validOnly :
    ∀ (bs : List (Option Json)) (st : ScanState),
      scanBlocks st bs = scanBlocks st (validOnly bs) := by
  intro bs
  induction bs with
  | nil => intro st; rfl
  | cons b rest ih =>
    intro st
    cases b with
    | none =>
      show scanBlocks st rest = scanBlocks st (validOnly (none :: rest))
      have hv : validOnly (none :: rest) = validOnly rest := rfl
      rw [hv]
      exact ih st
    | some j =>
      show scanBlocks (processBlock st (some j)) rest
          = scanBlocks st (validOnly (some j :: rest))
      have hv : validOnly (some j :: rest) = some j :: validOnly rest := rfl
      rw [hv]
      exact ih (processBlock st (some j))

/-- Mapping a character function preserves prefixes. -/
theorem startsW_map (f : Char → Char) :
    ∀ sub l : List Char, startsW sub l = true → startsW (sub.map f) (l.map f) = true := by
  intro sub
  induction sub with
  | nil => intro l _; rfl
  | cons a as ih =>
    intro l h
    cases l with
    | nil => exact Bool.noConfusion h
    | cons b bs =>
      simp only [startsW, Bool.and_eq_true, beq_iff_eq] at h
      obtain ⟨hab, hrest⟩ := h
      subst hab
      simp only [List.map_cons, startsW, Bool.and_eq_true, beq_iff_eq]
      exact ⟨trivial, ih bs hrest⟩

/-- Mapping a character function preserves substring occurrences. -/
theorem hasSubL_map (f : Char → Char) :
    ∀ sub l : List Char, hasSubL sub l = true → hasSubL (sub.map f) (l.map f) = true := by
  intro sub l
  induction l with
  | nil =>
    intro h
    simp only [hasSubL] at h ⊢
    simp only [List.isEmpty_iff] at h
    subst h
    rfl
  | cons c rest ih =>
    intro h
    simp only [hasSubL, Bool.or_eq_true] at h
    simp only [List.map_cons, hasSubL, Bool.or_eq_true]
    rcases h with h | h
    · exact Or.inl (startsW_map f sub (c :: rest) h)
    · exact Or.inr (ih h)

/-- A string with a non-empty prefix is non-empty. -/
theorem startsW_ne_nil (a : Char) (as l : List Char)
    (h : startsW (a :: as) l = true) : l ≠ [] := by
  intro hl
  subst hl
  exact Bool.noConfusion h

/-- An absolute reference passes through absUrl unchanged, for any base. -/
theorem absUrl_abs (base u : String)
    (h : (startsWithS u "http://" || startsWithS u "https://") = true) :
    absUrl base u = u := by
  have hne : u.data ≠ [] := by
    have h2 : startsWithS u "http://" = true ∨ startsWithS u "https://" = true := by
      simpa using h
    rcases h2 with h1 | h1
    · exact startsW_ne_nil 'h' _ u.data h1
    · exact startsW_ne_nil 'h' _ u.data h1
  have hemp : u.data.isEmpty = false := by simp [List.isEmpty_iff, hne]
  simp only [absUrl, hemp, Bool.false_eq_true, if_false, resolveUrl, h, if_true]

/-- A root-relative reference resolves to the base's scheme and host. -/
theorem absUrl_root_rel (base u scheme host path : String)
    (hb : parseBase base = some (scheme, host, path))
    (habs : (startsWithS u "http://" || startsWithS u "https://") = false)
    (h2 : startsWithS u "//" = false) (h1 : startsWithS u "/" = true) :
    absUrl base u = scheme ++ "://" ++ host ++ u := by
  have hne : u.data ≠ [] := startsW_ne_nil '/' [] u.data h1
  have hemp : u.data.isEmpty = false := by simp [List.isEmpty_iff, hne]
  simp only [absUrl, hemp, Bool.false_eq_true, if_false, resolveUrl, habs, hb, h2, h1,
    if_true]

/-- A failed resolution degrades to the empty string. -/
theorem absUrl_of_resolve_none (base u : String) (h : resolveUrl base u = none) :
    absUrl base u = "" := by
  by_cases he : u.data.isEmpty
  · simp only [absUrl, he, if_true]
  · simp only [absUrl, he, Bool.false_eq_true, if_false, h]

/-- The merged currency, when present, is never the empty string: the
falsy-or chain only passes non-empty strings from its first two operands
and the loose detector only produces fixed codes. -/
theorem mergeResolve_currency_ne_empty (url : String) (st : ScanState)
    (ogTitle ogImage metaPrice metaCurrency : String) (c : String)
    (h : (mergeResolve url st ogTitle ogImage metaPrice metaCurrency).currency = some c) :
    c ≠ "" := by
  exact orS_some_ne _ _ (orS_some_ne _ _ (extractCurrencyLoose_ne_empty metaPrice)) c h

/-- A document with no structured-data blocks and no heuristic metadata. -/
def emptyDoc : Doc :=
  { ldJsonBlocks := [], ogTitleAttr := none, twitterTitleAttr := none, titleText := "",
    ogImageAttr := none, twitterImageAttr := none, priceMetaProp := none,
    priceMetaName := none, priceItemAttr := none, priceItemText := "",
    currencyMetaProp := none, currencyMetaName := none, currencyItemAttr := none,
    currencyItemText := "" }

/-- Two candidates: the first carries an offer with a price and no
currency, the second an offer with priceCurrency "EUR". -/
def c1Cands : List Json :=
  [Json.obj [("offers", Json.obj [("price", Json.str "5")])],
   Json.obj [("offers", Json.obj [("price", Json.str "6"),
     ("priceCurrency", Json.str "EUR")])]]

/-- C1, counterexample: on `c1Cands` the claimed full currency pass would
apply the second candidate's offer currency "EUR" (currency is still unset
after the first candidate), but the scan of src/index.js leaves the
currency unset: the currency update sits inside the `price == null` guard
and the first candidate has already set the price. -/
theorem C1_currency_pass_counterexample :
    currencyFullPass c1Cands = some "EUR" ∧
    (scanCandidates initScan c1Cands).currency = none := by
  exact ⟨rfl, rfl⟩

/-- C1, amended: the candidate scan stops early exactly when all three of
title, image and price are set after a step, but currency does not get a
full pass: an offer's currency is only applied by a candidate processed
while the price is still unset — once the price is set, the currencies of
all later candidates are ignored. -/
theorem C1_currency_scan_amended :
    (∀ (st : ScanState) (n : Json) (rest : List Json),
      scanCandidates st (n :: rest) =
        (if scanComplete (scanStep st n) then scanStep st n
         else scanCandidates (scanStep st n) rest)) ∧
    (∀ (st : ScanState) (cs : List Json) (p : ℚ), st.price = some p →
      (scanCandidates st cs).currency = st.currency) := by
  constructor
  · intro st n rest
    rfl
  · intro st cs p h
    exact scanCandidates_currency_of_price_some cs st p h

/-- C1, witness for the amended theorem at a concrete state and candidate
list: with the price already set, the scan over `c1Cands` keeps the unset
currency. -/
theorem C1_currency_scan_amended_witness :
    (scanCandidates ⟨"", "", some 5, none⟩ c1Cands).currency = none :=
  (C1_currency_scan_amended.2 ⟨"", "", some 5, none⟩ c1Cands 5 rfl).trans rfl

/-- C2: the numeric normalizer maps "1.234,56" and "1,234.56" to 1234.56
and "19,99" to 19.99, maps "" and "abc" to absent, and whenever both a
comma and a period appear in the cleaned string, the separator kind
occurring last is the decimal separator: all occurrences of the other kind
are removed, the decimal separator becomes a period, and the result goes
through the final numeric conversion. -/
theorem C2_number_normalization :
    strToNum "1.234,56" = some (1234.56 : ℚ) ∧
    strToNum "1,234.56" = some (1234.56 : ℚ) ∧
    strToNum "19,99" = some (19.99 : ℚ) ∧
    strToNum "" = none ∧
    strToNum "abc" = none ∧
    (∀ s : String, ',' ∈ cleanedOf s.data → '.' ∈ cleanedOf s.data →
      strToNum s = numParse (specNormalizeBoth (cleanedOf s.data))) := by
  refine ⟨?_, ?_, ?_, by decide, by decide, ?_⟩
  · have h : strToNum "1.234,56" = some ((digitsToNat ['1', '2', '3', '4'] 0 : ℚ) +
        (digitsToNat ['5', '6'] 0 : ℚ) / ((10 : ℚ) ^ (2 : Nat))) := rfl
    rw [h]
    norm_num [show digitsToNat ['1', '2', '3', '4'] 0 = 1234 from rfl,
      show digitsToNat ['5', '6'] 0 = 56 from rfl]
  · have h : strToNum "1,234.56" = some ((digitsToNat ['1', '2', '3', '4'] 0 : ℚ) +
        (digitsToNat ['5', '6'] 0 : ℚ) / ((10 : ℚ) ^ (2 : Nat))) := rfl
    rw [h]
    norm_num [show digitsToNat ['1', '2', '3', '4'] 0 = 1234 from rfl,
      show digitsToNat ['5', '6'] 0 = 56 from rfl]
  · have h : strToNum "19,99" = some ((digitsToNat ['1', '9'] 0 : ℚ) +
        (digitsToNat ['9', '9'] 0 : ℚ) / ((10 : ℚ) ^ (2 : Nat))) := rfl
    rw [h]
    norm_num [show digitsToNat ['1', '9'] 0 = 19 from rfl,
      show digitsToNat ['9', '9'] 0 = 99 from rfl]
  · intro s hc hd
    have hne : cleanedOf s.data ≠ [] := List.ne_nil_of_mem hc
    rw [strToNum_eq_numParse_codeNormalize s hne]
    exact numParse_codeNormalize_eq_spec (cleanedOf s.data) hc hd

/-- C2, witness for the separator-disambiguation clause at "1.234,56". -/
theorem C2_number_normalization_witness :
    (',' ∈ cleanedOf "1.234,56".data) ∧ ('.' ∈ cleanedOf "1.234,56".data) ∧
    strToNum "1.234,56" = numParse (specNormalizeBoth (cleanedOf "1.234,56".data)) :=
  ⟨by decide, by decide,
    C2_number_normalization.2.2.2.2.2 "1.234,56" (by decide) (by decide)⟩

/-- The structured-data block of claim C3. -/
def c3Json : Json :=
  Json.obj [("@type", Json.str "Product"), ("name", Json.str "Widget"),
    ("image", Json.arr [Json.str "http://a/x.jpg", Json.str "http://a/y.jpg"]),
    ("offers", Json.obj [("price", Json.str "19,99"),
      ("priceCurrency", Json.str "EUR")])]

/-- The document of claim C3: just the one Product block. -/
def c3Doc : Doc := { emptyDoc with ldJsonBlocks := [some c3Json] }

/-- C3: a document with one structured-data block of type Product, name
"Widget", images ["http://a/x.jpg", "http://a/y.jpg"] and offer
{price "19,99", priceCurrency "EUR"} extracts, for every base URL, to
exactly {title "Widget", imageUrl "http://a/x.jpg", price 19.99,
currency "EUR"}. -/
theorem C3_widget_extraction (url : String) :
    parseFromHtml url c3Doc =
      { title := "Widget", imageUrl := "http://a/x.jpg",
        price := some (19.99 : ℚ), currency := some "EUR" } := by
  have habs : absUrl url "http://a/x.jpg" = "http://a/x.jpg" :=
    absUrl_abs url "http://a/x.jpg" (by decide)
  have h : parseFromHtml url c3Doc =
      { title := "Widget", imageUrl := absUrl url "http://a/x.jpg",
        price := some ((digitsToNat ['1', '9'] 0 : ℚ) +
          (digitsToNat ['9', '9'] 0 : ℚ) / ((10 : ℚ) ^ (2 : Nat))),
        currency := some "EUR" } := rfl
  have hq : ((digitsToNat ['1', '9'] 0 : ℚ) +
      (digitsToNat ['9', '9'] 0 : ℚ) / ((10 : ℚ) ^ (2 : Nat))) = (19.99 : ℚ) := by
    norm_num [show digitsToNat ['1', '9'] 0 = 19 from rfl,
      show digitsToNat ['9', '9'] 0 = 99 from rfl]
  rw [h, habs, hq]

/-- The structured-data block of claim C4's counterexample: a page-supplied
currency that is not a three-letter code. -/
def c4Json : Json :=
  Json.obj [("@type", Json.str "Product"),
    ("offers", Json.obj [("price", Json.str "9"),
      ("priceCurrency", Json.str "EUROS")])]

/-- The document of claim C4's counterexample. -/
def c4Doc : Doc := { emptyDoc with ldJsonBlocks := [some c4Json] }

/-- C4, counterexample: an offer declaring priceCurrency "EUROS" puts the
five-letter string "EUROS" into the output currency, so the claimed
three-letter invariant fails. -/
theorem C4_three_letter_counterexample :
    (parseFromHtml "https://x.example/p" c4Doc).currency = some "EUROS" ∧
    "EUROS".length ≠ 3 := by
  exact ⟨rfl, by decide⟩

/-- C4, amended: the currency of every extracted record, when present, is a
non-empty string; the page-supplied code is passed through unvalidated, so
only non-emptiness — not three-letter-ness — holds for every input. -/
theorem C4_currency_nonempty (url : String) (doc : Doc) (c : String)
    (h : (parseFromHtml url doc).currency = some c) : c ≠ "" := by
  exact mergeResolve_currency_ne_empty url (scanBlocks initScan doc.ldJsonBlocks)
    (pickFirst [doc.ogTitleAttr, doc.twitterTitleAttr, some doc.titleText])
    (pickFirst [doc.ogImageAttr, doc.twitterImageAttr])
    (pickFirst [doc.priceMetaProp, doc.priceMetaName, doc.priceItemAttr,
      some doc.priceItemText])
    (pickFirst [doc.currencyMetaProp, doc.currencyMetaName, doc.currencyItemAttr,
      some doc.currencyItemText]) c h

/-- C4, witness for the amended theorem: the "EUROS" record's currency is
indeed non-empty. -/
theorem C4_currency_nonempty_witness :
    (parseFromHtml "https://x.example/p" c4Doc).currency = some "EUROS" ∧
    "EUROS" ≠ "" :=
  ⟨rfl, C4_currency_nonempty "https://x.example/p" c4Doc "EUROS" rfl⟩

/-- C5: extraction never fails and malformed structured-data blocks are
skipped silently: on every document and base URL the result equals the
result on the document restricted to its valid blocks (the embedding is a
total function, JSON.parse failures being modelled as `none` blocks that
the catch discards). -/
theorem C5_malformed_skipped (url : String) (doc : Doc) :
    parseFromHtml url doc =
      parseFromHtml url { doc with ldJsonBlocks := validOnly doc.ldJsonBlocks } := by
  show mergeResolve url (scanBlocks initScan doc.ldJsonBlocks)
      (pickFirst [doc.ogTitleAttr, doc.twitterTitleAttr, some doc.titleText])
      (pickFirst [doc.ogImageAttr, doc.twitterImageAttr])
      (pickFirst [doc.priceMetaProp, doc.priceMetaName, doc.priceItemAttr,
        some doc.priceItemText])
      (pickFirst [doc.currencyMetaProp, doc.currencyMetaName, doc.currencyItemAttr,
        some doc.currencyItemText]) =
    mergeResolve url (scanBlocks initScan (validOnly doc.ldJsonBlocks))
      (pickFirst [doc.ogTitleAttr, doc.twitterTitleAttr, some doc.titleText])
      (pickFirst [doc.ogImageAttr, doc.twitterImageAttr])
      (pickFirst [doc.priceMetaProp, doc.priceMetaName, doc.priceItemAttr,
        some doc.priceItemText])
      (pickFirst [doc.currencyMetaProp, doc.currencyMetaName, doc.currencyItemAttr,
        some doc.currencyItemText])
  rw [scanBlocks_validOnly doc.ldJsonBlocks initScan]

/-- C6: for every structured scan result and heuristic raw strings
(trim-stable where the pipeline guarantees it), the merge resolves the
title to the structured title when non-empty else the heuristic title, the
price to the structured price when present else the normalized heuristic
price string, and the currency to the structured currency when present,
else the trimmed heuristic currency string when non-empty, else the loose
detector applied to the heuristic price string. -/
theorem C6_merge_resolution (url : String) (st : ScanState)
    (ogTitle ogImage metaPrice metaCurrency : String)
    (ht : jsTrim st.title = st.title) (hog : jsTrim ogTitle = ogTitle)
    (hcur : ∀ c, st.currency = some c → c ≠ "") :
    (mergeResolve url st ogTitle ogImage metaPrice metaCurrency).title =
      (if st.title = "" then ogTitle else st.title) ∧
    (mergeResolve url st ogTitle ogImage metaPrice metaCurrency).price =
      (match st.price with
       | some p => some p
       | none => strToNum metaPrice) ∧
    (mergeResolve url st ogTitle ogImage metaPrice metaCurrency).currency =
      (match st.currency with
       | some c => some c
       | none =>
         if jsTrim metaCurrency = "" then extractCurrencyLoose metaPrice
         else some (jsTrim metaCurrency)) := by
  refine ⟨?_, rfl, ?_⟩
  · show pickFirst [some st.title, some ogTitle] = _
    simp only [pickFirst, Option.getD, ht, hog]
    by_cases h1 : st.title = ""
    · rw [if_pos h1, h1]
      by_cases h2 : ogTitle = ""
      · rw [h2]
        simp
      · simp [h2]
    · rw [if_neg h1]
      simp [h1]
  · show orS st.currency
        (orS (if metaCurrency != "" then some (jsTrim metaCurrency) else none)
          (extractCurrencyLoose metaPrice)) = _
    cases hc : st.currency with
    | some c0 =>
      have hne : c0 ≠ "" := hcur c0 hc
      simp only [orS, hne, if_neg, bne_iff_ne, ne_eq, not_false_eq_true, beq_iff_eq]
    | none =>
      show orS (if metaCurrency != "" then some (jsTrim metaCurrency) else none)
          (extractCurrencyLoose metaPrice) = _
      by_cases hm : metaCurrency = ""
      · rw [hm]
        simp [orS, jsTrim, trimL]
      · rw [if_pos (by simpa using hm)]
        by_cases h3 : jsTrim metaCurrency = ""
        · rw [if_pos h3]
          simp only [orS, h3]
          simp
        · rw [if_neg h3]
          simp only [orS]
          rw [if_neg (by simpa using h3)]

/-- C6, witness: a concrete merge with a structured title and no structured
currency resolves the title to the structured one. -/
theorem C6_merge_resolution_witness :
    (mergeResolve "https://b.example/" ⟨"Tee", "", none, none⟩ "OG" "" "" "").title
      = "Tee" := by
  have h := C6_merge_resolution "https://b.example/" ⟨"Tee", "", none, none⟩
    "OG" "" "" "" rfl rfl (fun c hc => Option.noConfusion hc)
  rw [h.1]
  decide

/-- C7: the loose currency detector checks EUR, then USD, then GBP — each
matched by its letter code case-insensitively or by its currency sign —
and returns absent otherwise; in particular a string containing both "$"
and "EUR" yields "EUR" regardless of the order of the symbols. -/
theorem C7_currency_priority :
    (∀ s : String, extractCurrencyLoose s =
      (if hasSub "EUR" (jsToUpper s) || hasSub "€" s then some "EUR"
       else if hasSub "USD" (jsToUpper s) || hasSub "$" s then some "USD"
       else if hasSub "GBP" (jsToUpper s) || hasSub "£" s then some "GBP"
       else none)) ∧
    (∀ s : String, hasSub "$" s = true → hasSub "EUR" s = true →
      extractCurrencyLoose s = some "EUR") := by
  constructor
  · intro s
    rfl
  · intro s hd he
    have hup : hasSub "EUR" (jsToUpper s) = true := by
      have h1 : hasSubL ("EUR".data.map Char.toUpper) (s.data.map Char.toUpper) = true :=
        hasSubL_map Char.toUpper "EUR".data s.data he
      have h2 : "EUR".data.map Char.toUpper = "EUR".data := by decide
      rw [h2] at h1
      exact h1
    show (if hasSub "EUR" (jsToUpper s) || hasSub "€" s then some "EUR"
          else if hasSub "USD" (jsToUpper s) || hasSub "$" s then some "USD"
          else if hasSub "GBP" (jsToUpper s) || hasSub "£" s then some "GBP"
          else none) = some "EUR"
    rw [hup]
    rfl

/-- C7, witness: "$ 19.99 EUR" contains both symbols and detects as EUR. -/
theorem C7_currency_priority_witness :
    hasSub "$" "$ 19.99 EUR" = true ∧ hasSub "EUR" "$ 19.99 EUR" = true ∧
    extractCurrencyLoose "$ 19.99 EUR" = some "EUR" :=
  ⟨by decide, by decide, C7_currency_priority.2 "$ 19.99 EUR" (by decide) (by decide)⟩

/-- The document of claim C8: no structured data, an Open Graph title and a
relative Open Graph image. -/
def c8Doc : Doc :=
  { emptyDoc with ogTitleAttr := some "Cool Shoes", ogImageAttr := some "/img/shoe.png" }

/-- C8: with no structured data, Open Graph title "Cool Shoes" and relative
image "/img/shoe.png" against base "https://shop.example/p/1", the output
title is "Cool Shoes" and the image is "https://shop.example/img/shoe.png";
in general an absolute reference passes through absUrl unchanged for every
base, a root-relative reference resolves against the base's scheme and
host, and an unresolvable reference yields the empty string. -/
theorem C8_og_fallback_and_url_resolution :
    (parseFromHtml "https://shop.example/p/1" c8Doc =
      { title := "Cool Shoes", imageUrl := "https://shop.example/img/shoe.png",
        price := none, currency := none }) ∧
    (∀ base u, (startsWithS u "http://" || startsWithS u "https://") = true →
      absUrl base u = u) ∧
    (∀ base u scheme host path, parseBase base = some (scheme, host, path) →
      (startsWithS u "http://" || startsWithS u "https://") = false →
      startsWithS u "//" = false → startsWithS u "/" = true →
      absUrl base u = scheme ++ "://" ++ host ++ u) ∧
    (∀ base u, resolveUrl base u = none → absUrl base u = "") :=
  ⟨by decide, absUrl_abs, absUrl_root_rel, absUrl_of_resolve_none⟩

/-- C8, witness: a concrete absolute pass-through, a concrete root-relative
resolution and a concrete failure against an unparsable base. -/
theorem C8_og_fallback_and_url_resolution_witness :
    absUrl "https://b.example/a/b" "http://x.example/y.png" = "http://x.example/y.png" ∧
    absUrl "https://b.example/a/b" "/img/z.png" = "https://b.example/img/z.png" ∧
    absUrl "nota url" "img/z.png" = "" := by
  refine ⟨C8_og_fallback_and_url_resolution.2.1 "https://b.example/a/b"
      "http://x.example/y.png" (by decide), ?_,
    C8_og_fallback_and_url_resolution.2.2.2 "nota url" "img/z.png" (by decide)⟩
  have h := C8_og_fallback_and_url_resolution.2.2.1 "https://b.example/a/b" "/img/z.png"
    "https" "b.example" "/a/b" (by decide) (by decide) (by decide) (by decide)
  rw [h]
  decide

/-- C9: any input whose cleaned form contains two or more commas and no
period normalizes to absent: only the first comma is replaced by a period,
a later comma survives, and the final conversion is NaN. -/
theorem C9_multi_comma_absent (s : String)
    (h2 : 2 ≤ countC ',' (cleanedOf s.data)) (hd : '.' ∉ cleanedOf s.data) :
    strToNum s = none := by
  have hc : ',' ∈ cleanedOf s.data := (countC_pos_iff_mem ',' _).mp (by omega)
  have hne : cleanedOf s.data ≠ [] := List.ne_nil_of_mem hc
  rw [strToNum_eq_numParse_codeNormalize s hne]
  have hld : lastIdx '.' (cleanedOf s.data) = none := (lastIdx_eq_none_iff '.' _).mpr hd
  obtain ⟨lc, hlc⟩ := lastIdx_some_of_mem ',' _ hc
  simp only [codeNormalize, hlc, hld]
  exact numParse_of_mem_comma _ (mem_replaceFirst_of_two_le ',' '.' _ h2)

/-- C9, witness at "1,234,567". -/
theorem C9_multi_comma_absent_witness :
    2 ≤ countC ',' (cleanedOf "1,234,567".data) ∧
    '.' ∉ cleanedOf "1,234,567".data ∧
    strToNum "1,234,567" = none :=
  ⟨by decide, by decide, C9_multi_comma_absent "1,234,567" (by decide) (by decide)⟩

/-- C10: with the SCRAPER_TOKEN environment value unset or empty the
modelled TOKEN is empty, so the auth check accepts every request and its
outcome does not depend on the Authorization header. -/
theorem C10_auth_disabled (env : Option String) (h1 h2 : Option String)
    (henv : env = none ∨ env = some "") :
    authOk (envToken env) h1 = true ∧
    authOk (envToken env) h1 = authOk (envToken env) h2 := by
  rcases henv with h | h <;> subst h <;> exact ⟨rfl, rfl⟩

/-- C10, witness: with the variable unset, a wrong bearer header passes and
agrees with a missing header. -/
theorem C10_auth_disabled_witness :
    authOk (envToken none) (some "Bearer wrong") = true ∧
    authOk (envToken none) (some "Bearer wrong") = authOk (envToken none) none :=
  C10_auth_disabled none (some "Bearer wrong") none (Or.inl rfl)
